import Mathlib

/-!
# Verification of the `concertvenues` ingestion pipeline

A shallow embedding, in Lean 4, of the parts of the `concertvenues`
repository that its specification talks about:

* the SQLite-backed store (`src/concertvenues/db.py`): `upsert_event`,
  `upsert_venue`, `get_upcoming_events`, `delete_past_events`,
  `_row_to_event`;
* the orchestration loop (`src/concertvenues/cli.py`: `_scrape`);
* configuration filtering (`src/concertvenues/config.py`: `get_venues`);
* the per-venue scrapers' normalization rules
  (`electricballroom.py`, `jazzcafe.py`, `islingtonassemblyhall.py`,
  `roundhouse.py`): year inference for dates without an explicit year,
  sold-out / availability normalization, and the shape and ordering of
  `fetch_events` results.

Machine-level details are modelled as follows: SQLite TEXT values are
`String`, compared byte-wise (memcmp / BINARY collation) exactly as
SQLite's `ORDER BY` and `<`/`>=` comparisons do, with `NULL` (here
`Option.none`) ordering before every TEXT value; SQLite's `ORDER BY` is
modelled as a sort of the filtered rows; Python `datetime.date` /
`datetime.time` values are records of numeric fields with Python's
field-lexicographic comparison; Python exceptions are `Except Unit`;
network fetch results are passed in as explicit data (the parse of the
page that `requests`/BeautifulSoup would have produced).
-/

namespace CV

/-! ## Byte-wise string comparison (SQLite BINARY collation)

SQLite compares TEXT values with memcmp over their UTF-8 bytes.  All
strings the pipeline stores are ASCII ISO dates and times, for which
memcmp order coincides with lexicographic order on code points. -/

/-- memcmp-style `≤` on strings as lists of characters. -/
def bytesLe : List Char → List Char → Bool
  | [], _ => true
  | _ :: _, [] => false
  | a :: as, b :: bs =>
    if a.toNat < b.toNat then true
    else if b.toNat < a.toNat then false
    else bytesLe as bs

/-- memcmp-style strict `<` on strings as lists of characters. -/
def bytesLt (a b : List Char) : Bool := !(bytesLe b a)

theorem bytesLe_refl : ∀ a, bytesLe a a = true := by
  intro a
  induction a with
  | nil => rfl
  | cons c cs ih => simp [bytesLe, ih]

theorem bytesLe_total : ∀ a b, bytesLe a b = true ∨ bytesLe b a = true := by
  intro a
  induction a with
  | nil => intro b; left; rfl
  | cons c cs ih =>
    intro b
    cases b with
    | nil => right; rfl
    | cons d ds =>
      by_cases h1 : c.toNat < d.toNat
      · left; simp [bytesLe, h1]
      · by_cases h2 : d.toNat < c.toNat
        · right; simp [bytesLe, h2]
        · rcases ih ds with h | h
          · left; simp [bytesLe, h1, h2, h]
          · right; simp [bytesLe, h1, h2, h]

theorem char_eq_of_toNat_eq {a b : Char} (h : a.toNat = b.toNat) : a = b := by
  cases a with
  | mk av ah =>
    cases b with
    | mk bv bh =>
      simp only [Char.toNat] at h
      have hv : av = bv := by
        cases av; cases bv
        congr 1
        exact BitVec.eq_of_toNat_eq h
      subst hv
      rfl

theorem bytesLe_antisymm :
    ∀ a b, bytesLe a b = true → bytesLe b a = true → a = b := by
  intro a
  induction a with
  | nil =>
    intro b _ hba
    cases b with
    | nil => rfl
    | cons d ds => simp [bytesLe] at hba
  | cons c cs ih =>
    intro b hab hba
    cases b with
    | nil => simp [bytesLe] at hab
    | cons d ds =>
      by_cases h1 : c.toNat < d.toNat
      · exfalso
        have h2 : ¬ d.toNat < c.toNat := by omega
        simp [bytesLe, h1, h2] at hba
      · by_cases h2 : d.toNat < c.toNat
        · exfalso; simp [bytesLe, h1, h2] at hab
        · have hcd : c = d := char_eq_of_toNat_eq (by omega)
          subst hcd
          simp only [bytesLe, h1, if_neg, if_neg h1] at hab hba
          rw [ih ds hab hba]

theorem bytesLe_trans :
    ∀ a b c, bytesLe a b = true → bytesLe b c = true → bytesLe a c = true := by
  intro a
  induction a with
  | nil => intro b c _ _; rfl
  | cons x xs ih =>
    intro b c hab hbc
    cases b with
    | nil => simp [bytesLe] at hab
    | cons y ys =>
      cases c with
      | nil => simp [bytesLe] at hbc
      | cons z zs =>
        by_cases hxy : x.toNat < y.toNat
        · by_cases hyz : y.toNat < z.toNat
          · have hxz : x.toNat < z.toNat := by omega
            simp [bytesLe, hxz]
          · by_cases hzy : z.toNat < y.toNat
            · exfalso; simp [bytesLe, hyz, hzy] at hbc
            · have hxz : x.toNat < z.toNat := by omega
              simp [bytesLe, hxz]
        · by_cases hyx : y.toNat < x.toNat
          · exfalso; simp [bytesLe, hxy, hyx] at hab
          · by_cases hyz : y.toNat < z.toNat
            · have hxz : x.toNat < z.toNat := by omega
              simp [bytesLe, hxz]
            · by_cases hzy : z.toNat < y.toNat
              · exfalso; simp [bytesLe, hyz, hzy] at hbc
              · have h1 : ¬ x.toNat < z.toNat := by omega
                have h2 : ¬ z.toNat < x.toNat := by omega
                simp only [bytesLe, if_neg hxy, if_neg hyx] at hab
                simp only [bytesLe, if_neg hyz, if_neg hzy] at hbc
                simp only [bytesLe, if_neg h1, if_neg h2]
                exact ih ys zs hab hbc

theorem bytesLt_iff_not_le {a b : List Char} :
    bytesLt a b = true ↔ ¬ bytesLe b a = true := by
  simp [bytesLt]

/-! ## Decimal printing and parsing

Python renders the numeric fields of `date.isoformat()` /
`time.isoformat()` with zero-padded fixed-width decimal (`%04d-%02d-%02d`
and `%02d:%02d:%02d`), and `date.fromisoformat` / `time.fromisoformat`
parse them back.  We embed that as explicit digit-list printing and
folding. -/

/-- The ASCII character of a decimal digit. -/
def digitChar (d : Nat) : Char := Char.ofNat (48 + d)

/-- The decimal value of an ASCII digit character. -/
def charDigit (c : Char) : Nat := c.toNat - 48

/-- Is `c` an ASCII decimal digit? -/
def isDigitCh (c : Char) : Bool := 48 ≤ c.toNat && c.toNat ≤ 57

/-- Little-endian decimal digits, by fuel-bounded structural recursion
(so that concrete values reduce inside the kernel). -/
def natDigitsAux : Nat → Nat → List Nat
  | _, 0 => []
  | 0, _ + 1 => []
  | fuel + 1, n + 1 => ((n + 1) % 10) :: natDigitsAux fuel ((n + 1) / 10)

/-- Little-endian decimal digits of `n` (empty for `0`). -/
def natDigits (n : Nat) : List Nat := natDigitsAux n n

theorem natDigitsAux_eq_digits :
    ∀ (fuel n : Nat), n ≤ fuel → natDigitsAux fuel n = Nat.digits 10 n := by
  intro fuel
  induction fuel with
  | zero =>
    intro n h
    interval_cases n
    show ([] : List Nat) = Nat.digits 10 0
    rw [Nat.digits_zero]
  | succ f ih =>
    intro n h
    cases n with
    | zero =>
      show ([] : List Nat) = Nat.digits 10 0
      rw [Nat.digits_zero]
    | succ n =>
      show ((n + 1) % 10) :: natDigitsAux f ((n + 1) / 10) = _
      have hdiv : (n + 1) / 10 ≤ f := by
        have := Nat.div_lt_self (Nat.succ_pos n) (by norm_num : 1 < 10)
        omega
      rw [ih _ hdiv, Nat.digits_def' (by norm_num : 1 < 10) (Nat.succ_pos n)]

theorem natDigits_eq_digits (n : Nat) : natDigits n = Nat.digits 10 n :=
  natDigitsAux_eq_digits n n le_rfl

/-- Big-endian decimal digits of `n` as characters (empty for `0`). -/
def natChars (n : Nat) : List Char := ((natDigits n).map digitChar).reverse

/-- Zero-pad a character list on the left to width `w`. -/
def padChars (w : Nat) (cs : List Char) : List Char :=
  List.replicate (w - cs.length) '0' ++ cs

/-- Parse a big-endian decimal digit-character list. -/
def parseChars (cs : List Char) : Nat :=
  cs.foldl (fun a c => 10 * a + charDigit c) 0

theorem charDigit_digitChar {d : Nat} (h : d < 10) :
    charDigit (digitChar d) = d := by
  interval_cases d <;> rfl

theorem isDigitCh_digitChar {d : Nat} (h : d < 10) :
    isDigitCh (digitChar d) = true := by
  interval_cases d <;> rfl

theorem foldl_parse_digits (ds : List Nat) (a : Nat) :
    List.foldl (fun acc d => 10 * acc + d) a ds
      = a * 10 ^ ds.length + Nat.ofDigits 10 ds.reverse := by
  induction ds generalizing a with
  | nil => simp [Nat.ofDigits]
  | cons d tl ih =>
    simp only [List.foldl_cons, List.reverse_cons, List.length_cons]
    rw [ih, Nat.ofDigits_append]
    simp [Nat.ofDigits]
    ring

theorem foldl_parse_replicate_zero (k : Nat) :
    List.foldl (fun a c => 10 * a + charDigit c) 0 (List.replicate k '0') = 0 := by
  induction k with
  | zero => rfl
  | succ n ih => simpa [List.replicate_succ, charDigit] using ih

theorem foldl_congr_of_mem {α β : Type} {f g : α → β → α} :
    ∀ (l : List β) (a : α), (∀ b ∈ l, ∀ x, f x b = g x b) →
      l.foldl f a = l.foldl g a := by
  intro l
  induction l with
  | nil => intro a _; rfl
  | cons b tl ih =>
    intro a h
    simp only [List.foldl_cons]
    rw [h b (by simp)]
    exact ih _ fun b' hb' x => h b' (by simp [hb']) x

theorem parseChars_pad_natChars (w n : Nat) :
    parseChars (padChars w (natChars n)) = n := by
  unfold parseChars padChars
  rw [List.foldl_append, foldl_parse_replicate_zero]
  unfold natChars
  rw [natDigits_eq_digits]
  rw [← List.map_reverse, List.foldl_map]
  have hcong :
      List.foldl (fun (a : Nat) (d : Nat) => 10 * a + charDigit (digitChar d)) 0
        (Nat.digits 10 n).reverse
        = List.foldl (fun (a : Nat) (d : Nat) => 10 * a + d) 0
            (Nat.digits 10 n).reverse := by
    apply foldl_congr_of_mem
    intro d hd x
    have hlt : d < 10 :=
      Nat.digits_lt_base (by norm_num) (List.mem_reverse.mp hd)
    rw [charDigit_digitChar hlt]
  rw [hcong, foldl_parse_digits, List.reverse_reverse]
  simp [Nat.ofDigits_digits]

theorem natChars_all_digit (n : Nat) : (natChars n).all isDigitCh = true := by
  apply List.all_eq_true.mpr
  intro c hc
  unfold natChars at hc
  rw [natDigits_eq_digits] at hc
  obtain ⟨d, hd, rfl⟩ := List.mem_map.mp (List.mem_reverse.mp hc)
  exact isDigitCh_digitChar (Nat.digits_lt_base (by norm_num) hd)

theorem padChars_all_digit {cs : List Char} (w : Nat)
    (h : cs.all isDigitCh = true) : (padChars w cs).all isDigitCh = true := by
  unfold padChars
  rw [List.all_append, h]
  simp only [Bool.and_true]
  apply List.all_eq_true.mpr
  intro c hc
  rw [List.eq_of_mem_replicate hc]
  rfl

theorem natChars_length_le {n w : Nat} (h : n < 10 ^ w) :
    (natChars n).length ≤ w := by
  unfold natChars
  rw [natDigits_eq_digits, List.length_reverse, List.length_map]
  rcases Nat.eq_zero_or_pos n with rfl | hn
  · simp
  · rw [Nat.digits_len 10 n (by norm_num) hn.ne']
    have := (Nat.lt_pow_iff_log_lt (by norm_num : (1:Nat) < 10) hn.ne').mp h
    omega

theorem padChars_length {cs : List Char} {w : Nat} (h : cs.length ≤ w) :
    (padChars w cs).length = w := by
  unfold padChars
  rw [List.length_append, List.length_replicate]
  omega

/-! ## Dates and times (Python `datetime.date`, `datetime.time`)

`datetime.date` is a record of `year`/`month`/`day`, valid when
`1 ≤ year ≤ 9999`, `1 ≤ month ≤ 12`, `1 ≤ day ≤ days-in-month`; two
dates compare lexicographically on `(year, month, day)`.
`datetime.time` is `hour`/`minute`/`second` (microseconds are always 0
in this pipeline), comparing lexicographically. -/

structure Date where
  year : Nat
  month : Nat
  day : Nat
deriving DecidableEq, Repr

structure Time where
  hour : Nat
  minute : Nat
  second : Nat
deriving DecidableEq, Repr

/-- Gregorian leap-year rule (Python `calendar.isleap`). -/
def isLeap (y : Nat) : Bool := y % 4 == 0 && (y % 100 != 0 || y % 400 == 0)

/-- Number of days in a month of a given year. -/
def daysInMonth (y m : Nat) : Nat :=
  if m = 2 then (if isLeap y then 29 else 28)
  else if m = 4 ∨ m = 6 ∨ m = 9 ∨ m = 11 then 30
  else 31

theorem daysInMonth_le_31 (y m : Nat) : daysInMonth y m ≤ 31 := by
  unfold daysInMonth
  split_ifs <;> omega

/-- Validity of a `datetime.date` value (the constructor's checks). -/
def Date.ok (d : Date) : Prop :=
  1 ≤ d.year ∧ d.year ≤ 9999 ∧ 1 ≤ d.month ∧ d.month ≤ 12 ∧
    1 ≤ d.day ∧ d.day ≤ daysInMonth d.year d.month

instance (d : Date) : Decidable d.ok := by unfold Date.ok; infer_instance

/-- Validity of a `datetime.time` value. -/
def Time.ok (t : Time) : Prop := t.hour ≤ 23 ∧ t.minute ≤ 59 ∧ t.second ≤ 59

instance (t : Time) : Decidable t.ok := by unfold Time.ok; infer_instance

/-- Days before month `m` in year `y` (cumulative month lengths). -/
def daysBeforeMonth (y m : Nat) : Nat :=
  (List.range (m - 1)).foldl (fun acc i => acc + daysInMonth y (i + 1)) 0

/-- Python `date.toordinal`: day number counting 0001-01-01 as 1. -/
def Date.toOrdinal (d : Date) : Nat :=
  let n := d.year - 1
  365 * n + n / 4 - n / 100 + n / 400 + daysBeforeMonth d.year d.month + d.day

/-- Python `date.__lt__`: lexicographic on `(year, month, day)`. -/
def Date.ltB (a b : Date) : Bool :=
  if a.year ≠ b.year then a.year < b.year
  else if a.month ≠ b.month then a.month < b.month
  else a.day < b.day

/-- Python `time.__le__` (and the `(date, time)` sort keys):
lexicographic on `(hour, minute, second)`. -/
def Time.leB (a b : Time) : Bool :=
  if a.hour ≠ b.hour then a.hour < b.hour
  else if a.minute ≠ b.minute then a.minute < b.minute
  else a.second ≤ b.second

/-- Python `time.min`, used as sort key for events with no time. -/
def timeMin : Time := ⟨0, 0, 0⟩

/-- Python `date.isoformat()`: `YYYY-MM-DD`, zero-padded. -/
def Date.isoformat (d : Date) : String :=
  ⟨padChars 4 (natChars d.year) ++
    ('-' :: (padChars 2 (natChars d.month) ++ ('-' :: padChars 2 (natChars d.day))))⟩

/-- Python `time.isoformat()` with zero microseconds: `HH:MM:SS`. -/
def Time.isoformat (t : Time) : String :=
  ⟨padChars 2 (natChars t.hour) ++
    (':' :: (padChars 2 (natChars t.minute) ++ (':' :: padChars 2 (natChars t.second))))⟩

/-- Python `date.fromisoformat` on the canonical `YYYY-MM-DD` form:
fixed-width fields, digit checks, and the `date()` constructor's
validity checks. -/
def Date.fromIso? (s : String) : Option Date :=
  match s.data with
  | y1 :: y2 :: y3 :: y4 :: c1 :: m1 :: m2 :: c2 :: d1 :: d2 :: [] =>
    if c1 = '-' ∧ c2 = '-' ∧ [y1, y2, y3, y4, m1, m2, d1, d2].all isDigitCh then
      let d : Date :=
        ⟨parseChars [y1, y2, y3, y4], parseChars [m1, m2], parseChars [d1, d2]⟩
      if d.ok then some d else none
    else none
  | _ => none

/-- Python `time.fromisoformat` on the canonical `HH:MM:SS` form. -/
def Time.fromIso? (s : String) : Option Time :=
  match s.data with
  | h1 :: h2 :: c1 :: m1 :: m2 :: c2 :: s1 :: s2 :: [] =>
    if c1 = ':' ∧ c2 = ':' ∧ [h1, h2, m1, m2, s1, s2].all isDigitCh then
      let t : Time := ⟨parseChars [h1, h2], parseChars [m1, m2], parseChars [s1, s2]⟩
      if t.ok then some t else none
    else none
  | _ => none

theorem exists_len2 (l : List Char) (h : l.length = 2) :
    ∃ a b, l = [a, b] := by
  match l, h with
  | [a, b], _ => exact ⟨a, b, rfl⟩

theorem exists_len4 (l : List Char) (h : l.length = 4) :
    ∃ a b c d, l = [a, b, c, d] := by
  match l, h with
  | [a, b, c, d], _ => exact ⟨a, b, c, d, rfl⟩

theorem dateFromIso_cons (y1 y2 y3 y4 c1 m1 m2 c2 d1 d2 : Char) :
    Date.fromIso? ⟨[y1, y2, y3, y4, c1, m1, m2, c2, d1, d2]⟩
      = if c1 = '-' ∧ c2 = '-' ∧ [y1, y2, y3, y4, m1, m2, d1, d2].all isDigitCh then
          (let d : Date :=
            ⟨parseChars [y1, y2, y3, y4], parseChars [m1, m2], parseChars [d1, d2]⟩
           if d.ok then some d else none)
        else none := rfl

theorem timeFromIso_cons (h1 h2 c1 m1 m2 c2 s1 s2 : Char) :
    Time.fromIso? ⟨[h1, h2, c1, m1, m2, c2, s1, s2]⟩
      = if c1 = ':' ∧ c2 = ':' ∧ [h1, h2, m1, m2, s1, s2].all isDigitCh then
          (let t : Time := ⟨parseChars [h1, h2], parseChars [m1, m2], parseChars [s1, s2]⟩
           if t.ok then some t else none)
        else none := rfl

/-- Writing a valid date with `isoformat` and reading it back with
`fromisoformat` is the identity. -/
theorem dateFromIso_isoformat (d : Date) (hok : d.ok) :
    Date.fromIso? d.isoformat = some d := by
  obtain ⟨h1, h2, h3, h4, h5, h6⟩ := hok
  have hy : (padChars 4 (natChars d.year)).length = 4 :=
    padChars_length (natChars_length_le (by omega))
  have hm : (padChars 2 (natChars d.month)).length = 2 :=
    padChars_length (natChars_length_le (by omega))
  have hd : (padChars 2 (natChars d.day)).length = 2 :=
    padChars_length (natChars_length_le
      (by have := daysInMonth_le_31 d.year d.month; omega))
  obtain ⟨a, b, c, e, hye⟩ := exists_len4 _ hy
  obtain ⟨f, g, hme⟩ := exists_len2 _ hm
  obtain ⟨i, j, hde⟩ := exists_len2 _ hd
  have hdata : d.isoformat.data
      = a :: b :: c :: e :: '-' :: f :: g :: '-' :: i :: j :: [] := by
    show padChars 4 (natChars d.year) ++ _ = _
    rw [hye, hme, hde]
    rfl
  have hydig : [a, b, c, e].all isDigitCh = true := by
    rw [← hye]; exact padChars_all_digit 4 (natChars_all_digit d.year)
  have hmdig : [f, g].all isDigitCh = true := by
    rw [← hme]; exact padChars_all_digit 2 (natChars_all_digit d.month)
  have hddig : [i, j].all isDigitCh = true := by
    rw [← hde]; exact padChars_all_digit 2 (natChars_all_digit d.day)
  have hyv : parseChars [a, b, c, e] = d.year := by
    rw [← hye]; exact parseChars_pad_natChars 4 d.year
  have hmv : parseChars [f, g] = d.month := by
    rw [← hme]; exact parseChars_pad_natChars 2 d.month
  have hdv : parseChars [i, j] = d.day := by
    rw [← hde]; exact parseChars_pad_natChars 2 d.day
  have hstr : d.isoformat = ⟨[a, b, c, e, '-', f, g, '-', i, j]⟩ := by
    cases hiso : d.isoformat with
    | mk l => rw [hiso] at hdata; exact congrArg String.mk hdata
  have hall : [a, b, c, e, f, g, i, j].all isDigitCh = true := by
    simp only [List.all_cons, Bool.and_eq_true] at hydig hmdig hddig ⊢
    simp [hydig, hmdig, hddig]
  rw [hstr, dateFromIso_cons, if_pos ⟨rfl, rfl, hall⟩]
  simp only [hyv, hmv, hdv]
  rw [if_pos ⟨h1, h2, h3, h4, h5, h6⟩]

/-- Writing a valid time with `isoformat` and reading it back with
`fromisoformat` is the identity. -/
theorem timeFromIso_isoformat (t : Time) (hok : t.ok) :
    Time.fromIso? t.isoformat = some t := by
  obtain ⟨h1, h2, h3⟩ := hok
  have hh : (padChars 2 (natChars t.hour)).length = 2 :=
    padChars_length (natChars_length_le (by omega))
  have hm : (padChars 2 (natChars t.minute)).length = 2 :=
    padChars_length (natChars_length_le (by omega))
  have hs : (padChars 2 (natChars t.second)).length = 2 :=
    padChars_length (natChars_length_le (by omega))
  obtain ⟨a, b, hhe⟩ := exists_len2 _ hh
  obtain ⟨c, e, hme⟩ := exists_len2 _ hm
  obtain ⟨f, g, hse⟩ := exists_len2 _ hs
  have hdata : t.isoformat.data
      = a :: b :: ':' :: c :: e :: ':' :: f :: g :: [] := by
    show padChars 2 (natChars t.hour) ++ _ = _
    rw [hhe, hme, hse]
    rfl
  have hhdig : [a, b].all isDigitCh = true := by
    rw [← hhe]; exact padChars_all_digit 2 (natChars_all_digit t.hour)
  have hmdig : [c, e].all isDigitCh = true := by
    rw [← hme]; exact padChars_all_digit 2 (natChars_all_digit t.minute)
  have hsdig : [f, g].all isDigitCh = true := by
    rw [← hse]; exact padChars_all_digit 2 (natChars_all_digit t.second)
  have hhv : parseChars [a, b] = t.hour := by
    rw [← hhe]; exact parseChars_pad_natChars 2 t.hour
  have hmv : parseChars [c, e] = t.minute := by
    rw [← hme]; exact parseChars_pad_natChars 2 t.minute
  have hsv : parseChars [f, g] = t.second := by
    rw [← hse]; exact parseChars_pad_natChars 2 t.second
  have hstr : t.isoformat = ⟨[a, b, ':', c, e, ':', f, g]⟩ := by
    cases hiso : t.isoformat with
    | mk l => rw [hiso] at hdata; exact congrArg String.mk hdata
  have hall : [a, b, c, e, f, g].all isDigitCh = true := by
    simp only [List.all_cons, Bool.and_eq_true] at hhdig hmdig hsdig ⊢
    simp [hhdig, hmdig, hsdig]
  rw [hstr, timeFromIso_cons, if_pos ⟨rfl, rfl, hall⟩]
  simp only [hhv, hmv, hsv]
  rw [if_pos ⟨h1, h2, h3⟩]

instance exceptDecEq {ε α : Type} [DecidableEq ε] [DecidableEq α] :
    DecidableEq (Except ε α) := fun a b =>
  match a, b with
  | .error e, .error f =>
    if h : e = f then .isTrue (by rw [h])
    else .isFalse (by intro he; cases he; exact h rfl)
  | .error _, .ok _ => .isFalse (by intro h; cases h)
  | .ok _, .error _ => .isFalse (by intro h; cases h)
  | .ok x, .ok y =>
    if h : x = y then .isTrue (by rw [h])
    else .isFalse (by intro he; cases he; exact h rfl)

theorem string_eq_of_data_eq {a b : String} (h : a.data = b.data) : a = b := by
  cases a
  cases b
  exact congrArg String.mk h

/-! ## The data model (`models.py`) and the store (`db.py`)

The `venues` table is a list of `Venue` rows; the `events` table is a
list of `EventRow` (the SQLite row: TEXT dates/times, `sold_out` as an
integer, surrogate `id`) together with the next AUTOINCREMENT id. -/

/-- The `Venue` dataclass / a row of the `venues` table. -/
structure Venue where
  key : String
  name : String
  city : String
  url : String
deriving DecidableEq, Repr

/-- The `Event` dataclass (`models.py`). -/
structure Event where
  venue_key : String
  title : String
  date : Date
  url : String
  time : Option Time := none
  description : Option String := none
  image_url : Option String := none
  on_sale_date : Option Date := none
  price : Option String := none
  sold_out : Bool := false
  id : Option Nat := none
deriving DecidableEq, Repr

/-- A row of the `events` table, exactly as stored by SQLite. -/
structure EventRow where
  id : Nat
  venue_key : String
  title : String
  date : String
  time : Option String
  url : String
  description : Option String
  image_url : Option String
  on_sale_date : Option String
  price : Option String
  sold_out : Nat
deriving DecidableEq, Repr

/-- The `events` table plus its AUTOINCREMENT counter. -/
structure EventsTable where
  rows : List EventRow
  nextId : Nat
deriving DecidableEq, Repr

/-- The `UNIQUE(venue_key, url)` constraint of the schema. -/
def EventsTable.wf (tbl : EventsTable) : Prop :=
  tbl.rows.Pairwise fun a b => a.venue_key ≠ b.venue_key ∨ a.url ≠ b.url

/-- `db.upsert_venue`: insert keyed by `key`; on conflict replace
`name`, `city`, `url` (never `key`). -/
def upsert_venue (venues : List Venue) (v : Venue) : List Venue :=
  if venues.any (fun r => r.key == v.key) then
    venues.map fun r =>
      if r.key == v.key then { r with name := v.name, city := v.city, url := v.url }
      else r
  else venues ++ [v]

/-- The dedup key `(venue_key, url)` of `upsert_event`. -/
def eventKeyMatch (vk u : String) (r : EventRow) : Bool :=
  r.venue_key == vk && r.url == u

/-- The serialized VALUES binding of `upsert_event`: ISO strings for
dates and times, `1`/`0` for `sold_out`, fresh AUTOINCREMENT id. -/
def eventVals (tbl : EventsTable) (e : Event) : EventRow :=
  { id := tbl.nextId
    venue_key := e.venue_key
    title := e.title
    date := e.date.isoformat
    time := e.time.map Time.isoformat
    url := e.url
    description := e.description
    image_url := e.image_url
    on_sale_date := e.on_sale_date.map Date.isoformat
    price := e.price
    sold_out := if e.sold_out then 1 else 0 }

/-- The `DO UPDATE SET` clause of `upsert_event`: replace every mutable
field with the incoming values, keeping `id`, `venue_key` and `url`. -/
def updateRow (v : EventRow) (r : EventRow) : EventRow :=
  { r with
    title := v.title, date := v.date, time := v.time,
    description := v.description, image_url := v.image_url,
    on_sale_date := v.on_sale_date, price := v.price,
    sold_out := v.sold_out }

/-- The per-row effect of the conflict branch of `upsert_event`. -/
def upsertUpdate (tbl : EventsTable) (e : Event) (r : EventRow) : EventRow :=
  if eventKeyMatch e.venue_key e.url r then updateRow (eventVals tbl e) r else r

/-- `db.upsert_event`: `INSERT ... ON CONFLICT(venue_key, url) DO UPDATE`
replacing every mutable field (`title`, `date`, `time`, `description`,
`image_url`, `on_sale_date`, `price`, `sold_out`) and keeping `id`,
`venue_key`, `url` of the existing row. -/
def upsert_event (tbl : EventsTable) (e : Event) : EventsTable :=
  if tbl.rows.any (eventKeyMatch e.venue_key e.url) then
    { tbl with rows := tbl.rows.map (upsertUpdate tbl e) }
  else { rows := tbl.rows ++ [eventVals tbl e], nextId := tbl.nextId + 1 }

/-! ### The `ORDER BY date, time` comparison

SQLite sorts ascending with `NULL` first, TEXT by memcmp. -/

/-- SQLite ascending order on the nullable `time` column. -/
def rowTimeLe : Option String → Option String → Bool
  | none, _ => true
  | some _, none => false
  | some a, some b => bytesLe a.data b.data

/-- SQLite `ORDER BY date, time` as a relation on event rows. -/
def rowLeB (a b : EventRow) : Bool :=
  if a.date == b.date then rowTimeLe a.time b.time
  else bytesLe a.date.data b.date.data

def rowLe (a b : EventRow) : Prop := rowLeB a b = true

instance : DecidableRel rowLe := fun a b => by unfold rowLe; infer_instance

instance rowLe_isTotal : IsTotal EventRow rowLe where
  total a b := by
    unfold rowLe rowLeB
    by_cases h : a.date = b.date
    · have h1 : (a.date == b.date) = true := by simpa using h
      have h2 : (b.date == a.date) = true := by simpa using h.symm
      rw [h1, h2]
      simp only [if_true]
      cases ha : a.time <;> cases hb : b.time <;> simp [rowTimeLe]
      exact bytesLe_total _ _
    · have h1 : (a.date == b.date) = false := by simpa using h
      have h2 : (b.date == a.date) = false := by simpa using fun he => h he.symm
      rw [h1, h2]
      simpa using bytesLe_total a.date.data b.date.data

instance rowLe_isTrans : IsTrans EventRow rowLe where
  trans a b c hab hbc := by
    unfold rowLe rowLeB at *
    by_cases hab' : a.date = b.date <;> by_cases hbc' : b.date = c.date
    · have hac : a.date = c.date := hab'.trans hbc'
      simp only [show (a.date == b.date) = true by simpa using hab',
        show (b.date == c.date) = true by simpa using hbc',
        show (a.date == c.date) = true by simpa using hac, if_true] at *
      cases ha : a.time <;> cases hb : b.time <;> cases hc : c.time <;>
        simp_all [rowTimeLe]
      exact bytesLe_trans _ _ _ hab hbc
    · have hac : a.date ≠ c.date := fun h => hbc' (hab' ▸ h)
      simp only [show (a.date == b.date) = true by simpa using hab',
        show (b.date == c.date) = false by simpa using hbc',
        show (a.date == c.date) = false by simpa using hac] at *
      simpa [hab'] using hbc
    · have hac : a.date ≠ c.date := fun h => hab' (h.trans hbc'.symm)
      simp only [show (a.date == b.date) = false by simpa using hab',
        show (b.date == c.date) = true by simpa using hbc',
        show (a.date == c.date) = false by simpa using hac] at *
      simpa [← hbc'] using hab
    · by_cases hac : a.date = c.date
      · exfalso
        simp only [show (a.date == b.date) = false by simpa using hab',
          show (b.date == c.date) = false by simpa using hbc'] at hab hbc
        rw [← hac] at hbc
        have := bytesLe_antisymm _ _ hab hbc
        exact hab' (string_eq_of_data_eq this)
      · simp only [show (a.date == b.date) = false by simpa using hab',
          show (b.date == c.date) = false by simpa using hbc',
          show (a.date == c.date) = false by simpa using hac] at *
        exact bytesLe_trans _ _ _ hab hbc

/-- The SELECT of `get_upcoming_events`: rows with
`start <= date <= end`, ordered by `date, time`. -/
def selectUpcomingRows (tbl : EventsTable) (start endd : String) : List EventRow :=
  List.insertionSort rowLe
    (tbl.rows.filter fun r =>
      bytesLe start.data r.date.data && bytesLe r.date.data endd.data)

/-- `db._row_to_event`: parse the stored TEXT back into an `Event`.
`none` marks a row whose stored text cannot be parsed back (in Python
this would raise); rows written by `upsert_event` always parse. -/
def _row_to_event (r : EventRow) : Option Event :=
  match Date.fromIso? r.date with
  | none => none
  | some d =>
    let t? : Option (Option Time) :=
      match r.time with
      | none => some none
      | some s => if s.data = [] then some none else (Time.fromIso? s).map some
    match t? with
    | none => none
    | some t =>
      let o? : Option (Option Date) :=
        match r.on_sale_date with
        | none => some none
        | some s => if s.data = [] then some none else (Date.fromIso? s).map some
      match o? with
      | none => none
      | some o =>
        some { venue_key := r.venue_key, title := r.title, date := d, time := t,
               url := r.url, description := r.description,
               image_url := r.image_url, on_sale_date := o, price := r.price,
               sold_out := r.sold_out != 0, id := some r.id }

/-- `db.get_upcoming_events`, given the ISO bounds `start`/`end` it
computes from `from_date` and `days_ahead`. -/
def get_upcoming_events (tbl : EventsTable) (start endd : String) :
    List (Option Event) :=
  (selectUpcomingRows tbl start endd).map _row_to_event

/-- `db.delete_past_events`: `DELETE FROM events WHERE date < today`;
the second component is the SQLite `rowcount` it returns. -/
def delete_past_events (tbl : EventsTable) (today : String) : EventsTable × Nat :=
  ({ rows := tbl.rows.filter fun r => !(bytesLt r.date.data today.data)
     nextId := tbl.nextId },
   (tbl.rows.filter fun r => bytesLt r.date.data today.data).length)

/-! ## The orchestration loop (`cli._scrape`) -/

/-- The two tables of the store. -/
structure DBState where
  venues : List Venue
  events : EventsTable
deriving DecidableEq, Repr

/-- One selected venue in a scrape pass: its key, the config-derived
venue fields, and the outcome of `scraper.fetch_events()`
(`.error` models the call raising an exception). -/
structure VenueRun where
  key : String
  venue_name : String
  city : String
  url : String
  fetch : Except Unit (List Event)
deriving Repr

def VenueRun.venue (r : VenueRun) : Venue :=
  ⟨r.key, r.venue_name, r.city, r.url⟩

/-- One iteration of the `for key, scraper_cls in targets.items()` loop
of `cli._scrape`: inside the `try`, first `upsert_venue`, then
`fetch_events`; on success upsert every event in order; an exception is
caught and leaves the rest of the iteration undone. -/
def scrapeVenueStep (db : DBState) (r : VenueRun) : DBState :=
  let db1 : DBState := { db with venues := upsert_venue db.venues r.venue }
  match r.fetch with
  | .error _ => db1
  | .ok evs => { db1 with events := evs.foldl upsert_event db1.events }

/-- The whole venue loop of `cli._scrape` (the prune pass that follows
it is `delete_past_events`). -/
def scrapeRun (db : DBState) (rs : List VenueRun) : DBState :=
  rs.foldl scrapeVenueStep db

/-! ## Configuration (`config.get_venues`) -/

/-- A `[venues.<key>]` section of `config.toml` (the keys the pipeline
reads; `enabled` may be absent). -/
structure VenueSection where
  enabled : Option Bool := none
  url : Option String := none
  city : Option String := none
deriving DecidableEq, Repr

/-- `config.get_venues`: keep the sections with
`v.get("enabled", True)` truthy (insertion order preserved). -/
def get_venues (venues : List (String × VenueSection)) :
    List (String × VenueSection) :=
  venues.filter fun kv => kv.2.enabled.getD true

/-! ## Text scanning shared by the scrapers

ASCII models of `str.lower`, `str.strip`, Python's `in` operator on
strings, and the two regexes of `electricballroom.py`
(`sold.?out`, case-insensitive, and the trailing-title-suffix pattern
`\s*[–-]?\s*sold.?out!?\s*$`). -/

/-- ASCII `str.lower`. -/
def lcChar (c : Char) : Char :=
  if 65 ≤ c.toNat ∧ c.toNat ≤ 90 then Char.ofNat (c.toNat + 32) else c

/-- Python `\s` on the ASCII range. -/
def isPySpace (c : Char) : Bool :=
  c = ' ' || c = '\t' || c = '\n' || c = '\r' || c.toNat = 11 || c.toNat = 12

/-- `[A-Za-z]`. -/
def isAsciiAlpha (c : Char) : Bool :=
  (65 ≤ c.toNat && c.toNat ≤ 90) || (97 ≤ c.toNat && c.toNat ≤ 122)

def dropWs (cs : List Char) : List Char := cs.dropWhile isPySpace

/-- Python `str.strip()`. -/
def pyStrip (cs : List Char) : List Char :=
  ((cs.dropWhile isPySpace).reverse.dropWhile isPySpace).reverse

def isPrefixOfChars : List Char → List Char → Bool
  | [], _ => true
  | _ :: _, [] => false
  | a :: as, b :: bs => a == b && isPrefixOfChars as bs

/-- Python `needle in hay` on strings. -/
def containsSub (needle : List Char) : List Char → Bool
  | [] => isPrefixOfChars needle []
  | c :: cs => isPrefixOfChars needle (c :: cs) || containsSub needle cs

/-- Does `re.search(r"sold.?out", s, re.IGNORECASE)` match at the head
of this (already lowercased) character list?  `.` matches any character
but a newline. -/
def soldOutHere : List Char → Bool
  | 's' :: 'o' :: 'l' :: 'd' :: rest =>
    (match rest with
     | 'o' :: 'u' :: 't' :: _ => true
     | c :: 'o' :: 'u' :: 't' :: _ => c != '\n'
     | _ => false)
  | _ => false

/-- `bool(_SOLD_OUT_RE.search(...))` on a lowercased character list. -/
def soldOutSearch : List Char → Bool
  | [] => false
  | c :: cs => soldOutHere (c :: cs) || soldOutSearch cs

/-- Case-insensitive comparison against a lowercase pattern character. -/
def eqCI (c pat : Char) : Bool := lcChar c == pat

/-- Match `d l o s` (the reversal of `sold`, case-insensitively);
return the rest on success. -/
def matchRevSold (cs : List Char) : Option (List Char) :=
  match cs with
  | d :: l :: o :: s :: rest =>
    if eqCI d 'd' && eqCI l 'l' && eqCI o 'o' && eqCI s 's' then some rest
    else none
  | _ => none

/-- After `sold` has matched (working right-to-left), consume the
pattern's leading `\s*[–-]?\s*`. -/
def matchRevLead (cs : List Char) : Option (List Char) :=
  let cs1 := dropWs cs
  let cs2 :=
    match cs1 with
    | c :: rest => if c = '-' ∨ c = '–' then rest else cs1
    | [] => cs1
  some (dropWs cs2)

/-- Match `_TITLE_SUFFIX_RE` (`\s*[–-]?\s*sold.?out!?\s*$`) against the
reversed title; return the reversed untouched prefix on success. -/
def titleSuffixMatch (revcs : List Char) : Option (List Char) :=
  let r1 := dropWs revcs
  let r2 :=
    match r1 with
    | c :: rest => if c = '!' then rest else r1
    | [] => r1
  match r2 with
  | t :: u :: o :: rest =>
    if eqCI t 't' && eqCI u 'u' && eqCI o 'o' then
      match matchRevSold rest with
      | some rest2 => matchRevLead rest2
      | none =>
        match rest with
        | mid :: rest' =>
          if mid ≠ '\n' then
            match matchRevSold rest' with
            | some rest2 => matchRevLead rest2
            | none => none
          else none
        | [] => none
    else none
  | _ => none

/-- `_TITLE_SUFFIX_RE.sub("", raw_title)`. -/
def stripTitleSuffix (cs : List Char) : List Char :=
  match titleSuffixMatch cs.reverse with
  | some revPrefix => revPrefix.reverse
  | none => cs

/-! ## Electric Ballroom (`scrapers/electricballroom.py`) -/

/-- `electricballroom._parse_date`, with the `dateparser.parse` result
supplied as the day/month it extracted (`none` = the library failed and
the function raises, which the caller catches).  Uses the reference
date's year, rolling forward one year when the candidate is more than
60 days in the past; an invalid `replace` raises (`none`). -/
def eb_parse_date (parsed : Option (Nat × Nat)) (reference : Date) :
    Option Date :=
  match parsed with
  | none => none
  | some (m, d) =>
    let candidate : Date := ⟨reference.year, m, d⟩
    if ¬ candidate.ok then none
    else if 60 < (reference.toOrdinal : Int) - (candidate.toOrdinal : Int) then
      let rolled : Date := ⟨reference.year + 1, m, d⟩
      if rolled.ok then some rolled else none
    else some candidate

/-- One `.grid-block` card of the Electric Ballroom listing page, as the
BeautifulSoup selectors of `fetch_events` extract it: each field is the
result of the corresponding `select_one`/regex step (`none` = element
missing or parse failed). -/
structure EBCard where
  link : Option String
  rawTitle : Option String
  hasBuyButton : Bool
  dateText : Option (Option (Nat × Nat))
  timeText : Option (Option Time)
  priceText : Option String
  imageUrl : Option String
deriving Repr

/-- Lines 45–49 of `electricballroom.py`: sold-out is detected from the
title text (`_SOLD_OUT_RE`, case-insensitive), and a card without a buy
button (`.buy-share-event .button`) is also treated as sold out. -/
def eb_sold_out (rawTitle : String) (hasBuyButton : Bool) : Bool :=
  let s := soldOutSearch (rawTitle.data.map lcChar)
  if !s && !hasBuyButton then true else s

/-- The body of the `for card in soup.select(".grid-block")` loop of
`ElectricBallroomScraper.fetch_events`: skip cards without link, title
or parseable future date; detect sold-out from the title text or a
missing buy button; strip the sold-out suffix from the title. -/
def ebCardEvent (today : Date) (c : EBCard) : Option Event :=
  match c.link with
  | none => none
  | some url =>
    match c.rawTitle with
    | none => none
    | some raw =>
      let sold_out := eb_sold_out raw c.hasBuyButton
      let title : String := ⟨pyStrip (stripTitleSuffix raw.data)⟩
      match c.dateText with
      | none => none
      | some parsed =>
        match eb_parse_date parsed today with
        | none => none
        | some event_date =>
          if event_date.ltB today then none
          else
            some { venue_key := "electricballroom", title := title,
                   date := event_date,
                   time := match c.timeText with
                           | some (some t) => some t
                           | _ => none,
                   url := url, price := c.priceText,
                   image_url := c.imageUrl, sold_out := sold_out }

/-- `ElectricBallroomScraper.fetch_events`: a failed listing fetch
(`requests.get` / `raise_for_status`) fails the whole call; otherwise
the events are accumulated in page order, with no sort. -/
def eb_fetch_events (page : Except Unit (List EBCard)) (today : Date) :
    Except Unit (List Event) :=
  match page with
  | .error e => .error e
  | .ok cards => .ok (cards.filterMap (ebCardEvent today))

/-! ## Jazz Cafe (`scrapers/jazzcafe.py`) -/

/-- `_MONTH_MAP.get` on a lowercased three-letter month name. -/
def monthMap (s : String) : Option Nat :=
  if s == "jan" then some 1 else if s == "feb" then some 2
  else if s == "mar" then some 3 else if s == "apr" then some 4
  else if s == "may" then some 5 else if s == "jun" then some 6
  else if s == "jul" then some 7 else if s == "aug" then some 8
  else if s == "sep" then some 9 else if s == "oct" then some 10
  else if s == "nov" then some 11 else if s == "dec" then some 12
  else none

/-- `re.sub(r"^[A-Za-z]{3}", "", text)`: drop a leading three-letter
day-of-week. -/
def stripDow (cs : List Char) : List Char :=
  match cs with
  | a :: b :: c :: rest =>
    if isAsciiAlpha a && isAsciiAlpha b && isAsciiAlpha c then rest else cs
  | _ => cs

/-- `re.match(r"(\d{1,2})\s*([A-Za-z]{3})", text)`: one or two leading
digits, optional whitespace, three letters; returns the day and the
month letters. -/
def matchDayMon (cs : List Char) : Option (Nat × List Char) :=
  match cs with
  | [] => none
  | c1 :: rest =>
    if isDigitCh c1 then
      let p : Nat × List Char :=
        match rest with
        | c2 :: rest' =>
          if isDigitCh c2 then (10 * charDigit c1 + charDigit c2, rest')
          else (charDigit c1, rest)
        | [] => (charDigit c1, [])
      match dropWs p.2 with
      | a :: b :: c :: _ =>
        if isAsciiAlpha a && isAsciiAlpha b && isAsciiAlpha c then
          some (p.1, [a, b, c])
        else none
      | _ => none
    else none

/-- `jazzcafe._parse_date`: parse `"Sat21Feb"` / `"21 Feb"`, inferring
the year from the reference date.  `.ok none` models `return None`;
`.error ()` models the uncaught `ValueError` that
`candidate = date(year + 1, month, day)` can raise. -/
def jc_parse_date (date_text : String) (reference : Date) :
    Except Unit (Option Date) :=
  let text := pyStrip (stripDow date_text.data)
  match matchDayMon text with
  | none => .ok none
  | some (day, mon3) =>
    match monthMap ⟨mon3.map lcChar⟩ with
    | none => .ok none
    | some month =>
      let candidate : Date := ⟨reference.year, month, day⟩
      if ¬ candidate.ok then .ok none
      else if 60 < (reference.toOrdinal : Int) - (candidate.toOrdinal : Int) then
        let rolled : Date := ⟨reference.year + 1, month, day⟩
        if rolled.ok then .ok (some rolled) else .error ()
      else .ok (some candidate)

/-- One event block of the Jazz Cafe listing page (`event-date` div plus
its enclosing block), as the selectors extract it. -/
structure JCItem where
  title : Option String
  link : Option String
  dateText : String
deriving Repr

/-- A listing stub (`{"title": ..., "url": ..., "date": ...}`). -/
structure JCStub where
  title : String
  url : String
  date : Date
deriving DecidableEq, Repr

/-- The listing loop body of `JazzCafeScraper.fetch_events`. -/
def jcItemStub (today : Date) (it : JCItem) : Except Unit (Option JCStub) :=
  match it.title with
  | none => .ok none
  | some title =>
    match it.link with
    | none => .ok none
    | some url =>
      match jc_parse_date it.dateText today with
      | .error e => .error e
      | .ok none => .ok none
      | .ok (some d) =>
        if d.ltB today then .ok none else .ok (some ⟨title, url, d⟩)

/-- The whole listing loop: an uncaught parse exception aborts the
call, otherwise collect the stubs in page order. -/
def jcStubs (today : Date) : List JCItem → Except Unit (List JCStub)
  | [] => .ok []
  | it :: its =>
    match jcItemStub today it with
    | .error e => .error e
    | .ok none => jcStubs today its
    | .ok (some s) =>
      match jcStubs today its with
      | .error e => .error e
      | .ok rest => .ok (s :: rest)

/-- What `_fetch_event_detail` contributes for one stub (the caller
falls back to `{}` — all defaults — when the detail fetch raises). -/
structure JCDetail where
  time : Option Time := none
  price : Option String := none
  sold_out : Bool := false
deriving Repr

def jcMkEvent (s : JCStub) (d : JCDetail) : Event :=
  { venue_key := "jazzcafe", title := s.title, date := s.date, url := s.url,
    time := d.time, price := d.price, sold_out := d.sold_out }

/-- The key of `events.sort(key=lambda e: (e.date, e.time or time.min))`. -/
def evKeyLeB (a b : Event) : Bool :=
  if a.date = b.date then Time.leB (a.time.getD timeMin) (b.time.getD timeMin)
  else a.date.ltB b.date

def evKeyLe (a b : Event) : Prop := evKeyLeB a b = true

instance : DecidableRel evKeyLe := fun a b => by unfold evKeyLe; infer_instance

/-- `JazzCafeScraper.fetch_events`: a failed listing fetch fails the
whole call; detail pages are fetched concurrently (`sched` is whatever
completion order `as_completed` produces) and the assembled events are
sorted by `(date, time or time.min)`. -/
def jc_fetch_events (listing : Except Unit (List JCItem)) (today : Date)
    (detailOf : JCStub → JCDetail) (sched : List JCStub → List JCStub) :
    Except Unit (List Event) :=
  match listing with
  | .error e => .error e
  | .ok items =>
    match jcStubs today items with
    | .error e => .error e
    | .ok stubs =>
      .ok (List.insertionSort evKeyLe
        ((sched stubs).map fun s => jcMkEvent s (detailOf s)))

/-! ## Islington Assembly Hall and Roundhouse availability rules -/

/-- Lines 110–118 of `islingtonassemblyhall._parse_detail`: the
sold-out flag and the price override, from the ticket CTA text
(`none` = no `.cta__foreground` element found). -/
def iah_availability (ctaText : Option String) (price0 : Option String) :
    Bool × Option String :=
  match ctaText with
  | none => (false, price0)
  | some t =>
    let lt := t.data.map lcChar
    let sold_out :=
      containsSub ['w', 'a', 'i', 't', 'i', 'n', 'g'] lt
        || containsSub ['s', 'o', 'l', 'd'] lt
    let price := if containsSub ['f', 'r', 'e', 'e'] lt then some "Free" else price0
    (sold_out, price)

/-- Lines 93–104 of `roundhouse._parse_detail`: sold-out from the
JSON-LD offer availability, and the drop of cancelled/postponed events
(`none` = candidate dropped). -/
def rh_status_availability (status availability : String) : Option Bool :=
  let sold_out := containsSub "SoldOut".data availability.data
  if containsSub "Cancelled".data status.data
      || containsSub "Postponed".data status.data then none
  else some sold_out

/-! # The claims -/

/-- C10: `get_venues` returns exactly the venue sections whose
`enabled` value is not `false`, in order; a section that omits the
`enabled` key counts as enabled and is included. -/
theorem C10_get_venues_enabled (venues : List (String × VenueSection)) :
    get_venues venues
        = venues.filter (fun kv => decide (kv.2.enabled ≠ some false))
      ∧ ∀ kv ∈ venues, kv.2.enabled = none → kv ∈ get_venues venues := by
  constructor
  · unfold get_venues
    apply List.filter_congr
    intro kv _
    cases h : kv.2.enabled with
    | none => simp
    | some b => cases b <;> simp [h]
  · intro kv hmem hnone
    unfold get_venues
    exact List.mem_filter.mpr ⟨hmem, by simp [hnone]⟩

/-- C10 witness: a concrete configuration with an enabled, a disabled
and an `enabled`-less venue section. -/
theorem C10_get_venues_enabled_witness :
    get_venues [("a", { enabled := some true }),
                ("b", { enabled := some false }),
                ("c", ({} : VenueSection))]
        = [("a", { enabled := some true }), ("c", ({} : VenueSection))]
      ∧ ("c", ({} : VenueSection)) ∈
          get_venues [("a", { enabled := some true }),
                      ("b", { enabled := some false }),
                      ("c", ({} : VenueSection))] := by
  refine ⟨?_, ?_⟩
  · rw [(C10_get_venues_enabled _).1]
    decide
  · exact (C10_get_venues_enabled _).2 ("c", {}) (by decide) rfl

/-- C6: after `delete_past_events` no remaining event is dated before
today; every event dated on or after today is kept, unchanged and with
its surrogate id, and nothing else appears; the returned count is the
number of rows deleted; when nothing is in the past the table is
returned unchanged and the count is 0. -/
theorem C6_delete_past_events (tbl : EventsTable) (today : String) :
    (∀ r ∈ (delete_past_events tbl today).1.rows,
        bytesLt r.date.data today.data = false)
    ∧ (∀ r ∈ tbl.rows, bytesLt r.date.data today.data = false →
        r ∈ (delete_past_events tbl today).1.rows)
    ∧ (∀ r ∈ (delete_past_events tbl today).1.rows, r ∈ tbl.rows)
    ∧ (delete_past_events tbl today).2
          + (delete_past_events tbl today).1.rows.length
        = tbl.rows.length
    ∧ (delete_past_events tbl today).1.nextId = tbl.nextId
    ∧ ((∀ r ∈ tbl.rows, bytesLt r.date.data today.data = false) →
        (delete_past_events tbl today).1 = tbl
          ∧ (delete_past_events tbl today).2 = 0) := by
  refine ⟨?_, ?_, ?_, ?_, rfl, ?_⟩
  · intro r hr
    have := (List.mem_filter.mp hr).2
    simpa using this
  · intro r hr h
    exact List.mem_filter.mpr ⟨hr, by simpa using h⟩
  · intro r hr
    exact (List.mem_filter.mp hr).1
  · show (tbl.rows.filter _).length + (tbl.rows.filter _).length = _
    have h := List.length_eq_length_filter_add (l := tbl.rows)
      fun r => bytesLt r.date.data today.data
    omega
  · intro h
    constructor
    · show ({ rows := _, nextId := tbl.nextId } : EventsTable) = tbl
      have : tbl.rows.filter (fun r => !(bytesLt r.date.data today.data))
          = tbl.rows :=
        List.filter_eq_self.mpr fun r hr => by simp [h r hr]
      rw [this]
    · show (tbl.rows.filter _).length = 0
      rw [List.length_eq_zero]
      rw [List.filter_eq_nil_iff]
      intro r hr
      simp [h r hr]

/-- C6 witness: a two-row table, one past and one future event relative
to 2026-01-01. -/
theorem C6_delete_past_events_witness :
    (∀ r ∈ (delete_past_events
        ⟨[⟨1, "v", "t", "2025-12-30", none, "u1", none, none, none, none, 0⟩,
          ⟨2, "v", "t", "2026-01-02", none, "u2", none, none, none, none, 0⟩], 3⟩
        "2026-01-01").1.rows, bytesLt r.date.data "2026-01-01".data = false)
    ∧ (delete_past_events
        ⟨[⟨1, "v", "t", "2025-12-30", none, "u1", none, none, none, none, 0⟩,
          ⟨2, "v", "t", "2026-01-02", none, "u2", none, none, none, none, 0⟩], 3⟩
        "2026-01-01").2
        + (delete_past_events
            ⟨[⟨1, "v", "t", "2025-12-30", none, "u1", none, none, none, none, 0⟩,
              ⟨2, "v", "t", "2026-01-02", none, "u2", none, none, none, none, 0⟩], 3⟩
            "2026-01-01").1.rows.length = 2 := by
  have h := C6_delete_past_events
    ⟨[⟨1, "v", "t", "2025-12-30", none, "u1", none, none, none, none, 0⟩,
      ⟨2, "v", "t", "2026-01-02", none, "u2", none, none, none, none, 0⟩], 3⟩
    "2026-01-01"
  exact ⟨h.1, h.2.2.2.1⟩

/-- C5: year inference in `_parse_date`: the candidate date is first
formed with the reference date's year, and the year is rolled forward
by one exactly when that candidate is more than 60 days before the
reference date; "3 Jan" at reference 2025-12-20 gives 2026-01-03 (both
in `jazzcafe._parse_date` on the raw text and in
`electricballroom._parse_date` on the parsed day/month). -/
theorem C5_year_inference :
    (∀ (m d : Nat) (ref : Date),
        Date.ok ⟨ref.year, m, d⟩ → Date.ok ⟨ref.year + 1, m, d⟩ →
        eb_parse_date (some (m, d)) ref
          = some (if 60 < (ref.toOrdinal : Int)
                      - ((⟨ref.year, m, d⟩ : Date).toOrdinal : Int)
                  then ⟨ref.year + 1, m, d⟩ else ⟨ref.year, m, d⟩))
    ∧ jc_parse_date "3 Jan" ⟨2025, 12, 20⟩ = .ok (some ⟨2026, 1, 3⟩)
    ∧ eb_parse_date (some (1, 3)) ⟨2025, 12, 20⟩ = some ⟨2026, 1, 3⟩ := by
  refine ⟨?_, by decide, by decide⟩
  intro m d ref h1 h2
  simp only [eb_parse_date]
  rw [if_neg (not_not_intro h1)]
  by_cases hroll : 60 < (ref.toOrdinal : Int)
      - ((⟨ref.year, m, d⟩ : Date).toOrdinal : Int)
  · rw [if_pos hroll, if_pos h2, if_pos hroll]
  · rw [if_neg hroll, if_neg hroll]

/-- C5 witness: a reference date well before the fragment's date, so no
roll-forward happens. -/
theorem C5_year_inference_witness :
    eb_parse_date (some (2, 10)) ⟨2026, 1, 1⟩ = some ⟨2026, 2, 10⟩ := by
  have h := C5_year_inference.1 2 10 ⟨2026, 1, 1⟩ (by decide) (by decide)
  rw [h]
  decide

/-- C3 counterexample: the claim says a failing adapter run leaves the
`venues` table unchanged for that key, but `cli._scrape` upserts the
venue row *before* calling `fetch_events`, so a run whose fetch raises
still creates the venue row: starting from an empty store, the venue
row for the failing key appears. -/
theorem C3_counterexample :
    (scrapeVenueStep ⟨[], ⟨[], 1⟩⟩
        ⟨"electricballroom", "Electric Ballroom", "London", "https://eb", .error ()⟩).venues
      = [⟨"electricballroom", "Electric Ballroom", "London", "https://eb"⟩]
    ∧ (⟨[], ⟨[], 1⟩⟩ : DBState).venues = [] := by
  exact ⟨rfl, rfl⟩

/-- C3 amended: `cli._scrape` upserts the Venue row at the start of
every adapter run, before `fetch_events` is called — so even a failing
run creates or refreshes the Venue row (and changes nothing else),
while a successful run upserts the Venue row first and only then
upserts the candidate events. -/
theorem C3_venue_upsert_order (db : DBState) (r : VenueRun) :
    (r.fetch = .error () → scrapeVenueStep db r
        = { db with venues := upsert_venue db.venues r.venue })
    ∧ (∀ evs, r.fetch = .ok evs → scrapeVenueStep db r
        = { venues := upsert_venue db.venues r.venue
            events := evs.foldl upsert_event db.events }) := by
  constructor
  · intro h
    unfold scrapeVenueStep
    rw [h]
  · intro evs h
    unfold scrapeVenueStep
    rw [h]

/-- C3 witness: the amended statement applied to a concrete failing run
and a concrete successful run. -/
theorem C3_venue_upsert_order_witness :
    scrapeVenueStep ⟨[], ⟨[], 1⟩⟩ ⟨"k", "n", "c", "u", .error ()⟩
      = ⟨[⟨"k", "n", "c", "u"⟩], ⟨[], 1⟩⟩ := by
  have h := (C3_venue_upsert_order ⟨[], ⟨[], 1⟩⟩ ⟨"k", "n", "c", "u", .error ()⟩).1 rfl
  rw [h]
  decide

/-- C8 counterexample: the claim says the absence of a purchase action
yields `sold_out = true` for every source item, but
`islingtonassemblyhall._parse_detail` leaves `sold_out = False` when no
ticket CTA element is found. -/
theorem C8_counterexample :
    (iah_availability none (some "£10")).1 = false := rfl

/-- C8 amended: sold-out text and a "waiting list" CTA normalize to
`sold_out = true`; a purchase action with no sold-out text normalizes
to `sold_out = false`; cancelled/postponed source statuses drop the
candidate; a missing purchase action means sold out in
`electricballroom` (missing buy button) but *not* in
`islingtonassemblyhall`, where a missing ticket CTA leaves
`sold_out = false`.  "Waiting List" gives `true`, "Get Tickets" gives
`false`. -/
theorem C8_availability :
    (∀ cta p0,
        containsSub ['w', 'a', 'i', 't', 'i', 'n', 'g'] (cta.data.map lcChar) = true →
        (iah_availability (some cta) p0).1 = true)
    ∧ (∀ cta p0,
        containsSub ['s', 'o', 'l', 'd'] (cta.data.map lcChar) = true →
        (iah_availability (some cta) p0).1 = true)
    ∧ (∀ cta p0,
        containsSub ['w', 'a', 'i', 't', 'i', 'n', 'g'] (cta.data.map lcChar) = false →
        containsSub ['s', 'o', 'l', 'd'] (cta.data.map lcChar) = false →
        (iah_availability (some cta) p0).1 = false)
    ∧ (∀ p0, (iah_availability none p0).1 = false)
    ∧ (∀ raw btn, soldOutSearch (raw.data.map lcChar) = true →
        eb_sold_out raw btn = true)
    ∧ (∀ raw, eb_sold_out raw false = true)
    ∧ (∀ raw, soldOutSearch (raw.data.map lcChar) = false →
        eb_sold_out raw true = false)
    ∧ (∀ status avail,
        (containsSub "Cancelled".data status.data = true
          ∨ containsSub "Postponed".data status.data = true) →
        rh_status_availability status avail = none)
    ∧ (iah_availability (some "Waiting List") none).1 = true
    ∧ (iah_availability (some "Get Tickets") none).1 = false := by
  refine ⟨?_, ?_, ?_, fun p0 => rfl, ?_, ?_, ?_, ?_, by decide, by decide⟩
  · intro cta p0 h
    simp [iah_availability, h]
  · intro cta p0 h
    simp [iah_availability, h]
  · intro cta p0 h1 h2
    simp [iah_availability, h1, h2]
  · intro raw btn h
    simp [eb_sold_out, h]
  · intro raw
    unfold eb_sold_out
    cases hs : soldOutSearch (raw.data.map lcChar) <;> simp [hs]
  · intro raw h
    simp [eb_sold_out, h]
  · intro status avail h
    simp only [rh_status_availability]
    rw [if_pos (Bool.or_eq_true _ _ ▸ h)]

/-- C8 witness: the availability rules applied at concrete inputs. -/
theorem C8_availability_witness :
    (iah_availability (some "Join the Waiting List") (some "£9")).1 = true
    ∧ eb_sold_out "Crowbar – SOLD OUT!" true = true
    ∧ rh_status_availability "https://schema.org/EventPostponed" "InStock" = none := by
  refine ⟨C8_availability.1 "Join the Waiting List" (some "£9") (by decide),
    C8_availability.2.2.2.2.1 "Crowbar – SOLD OUT!" true (by decide),
    C8_availability.2.2.2.2.2.2.2.1 "https://schema.org/EventPostponed" "InStock"
      (Or.inr (by decide))⟩

/-! ### Supporting lemmas for the failure-isolation claim -/

theorem scrapeRun_append (db : DBState) (rs1 rs2 : List VenueRun) :
    scrapeRun db (rs1 ++ rs2) = scrapeRun (scrapeRun db rs1) rs2 :=
  List.foldl_append _ _ _ _

theorem scrapeVenueStep_events_of_error (db : DBState) (r : VenueRun)
    (h : r.fetch = .error ()) : (scrapeVenueStep db r).events = db.events := by
  unfold scrapeVenueStep
  rw [h]

/-- The evolution of the `events` table along a scrape pass (the
`events` side of `scrapeRun`, which never reads the `venues` table). -/
def eventsAfter (t : EventsTable) : List VenueRun → EventsTable
  | [] => t
  | r :: rs =>
    eventsAfter
      (match r.fetch with
       | .error _ => t
       | .ok evs => evs.foldl upsert_event t) rs

theorem scrapeRun_events (db : DBState) (rs : List VenueRun) :
    (scrapeRun db rs).events = eventsAfter db.events rs := by
  induction rs generalizing db with
  | nil => rfl
  | cons r rs ih =>
    show (scrapeRun (scrapeVenueStep db r) rs).events = _
    rw [ih]
    show eventsAfter (scrapeVenueStep db r).events rs
      = eventsAfter
          (match r.fetch with
           | .error _ => db.events
           | .ok evs => evs.foldl upsert_event db.events) rs
    have hstep : (scrapeVenueStep db r).events
        = (match r.fetch with
           | .error _ => db.events
           | .ok evs => evs.foldl upsert_event db.events) := by
      unfold scrapeVenueStep
      cases r.fetch <;> rfl
    rw [hstep]

theorem eventsAfter_middle_error (t : EventsTable) (rs1 rs2 : List VenueRun)
    (r : VenueRun) (h : r.fetch = .error ()) :
    eventsAfter t (rs1 ++ r :: rs2) = eventsAfter t (rs1 ++ rs2) := by
  induction rs1 generalizing t with
  | nil => simp [eventsAfter, h]
  | cons r' rs1 ih =>
    simp only [List.cons_append, eventsAfter]
    exact ih _

theorem mem_upsert_event_of_key_ne (tbl : EventsTable) (e : Event)
    (row : EventRow) (h : row ∈ tbl.rows) (hne : e.venue_key ≠ row.venue_key) :
    row ∈ (upsert_event tbl e).rows := by
  have hmatch : eventKeyMatch e.venue_key e.url row = false := by
    unfold eventKeyMatch
    have : (row.venue_key == e.venue_key) = false :=
      beq_eq_false_iff_ne.mpr fun hh => hne hh.symm
    rw [this, Bool.false_and]
  simp only [upsert_event]
  by_cases hany : tbl.rows.any (eventKeyMatch e.venue_key e.url) = true
  · rw [if_pos hany]
    exact List.mem_map.mpr ⟨row, h, by simp [upsertUpdate, hmatch]⟩
  · rw [if_neg hany]
    exact List.mem_append_left _ h

theorem mem_foldl_upsert_of_key_ne (evs : List Event) (tbl : EventsTable)
    (row : EventRow) (h : row ∈ tbl.rows)
    (hne : ∀ e ∈ evs, e.venue_key ≠ row.venue_key) :
    row ∈ (evs.foldl upsert_event tbl).rows := by
  induction evs generalizing tbl with
  | nil => exact h
  | cons e evs ih =>
    exact ih _ (mem_upsert_event_of_key_ne _ _ _ h (hne e (by simp)))
      fun e' he' => hne e' (by simp [he'])

theorem mem_eventsAfter_of_key_ne (rs : List VenueRun) (t : EventsTable)
    (row : EventRow) (h : row ∈ t.rows)
    (hne : ∀ r ∈ rs, ∀ evs, r.fetch = .ok evs →
      ∀ e ∈ evs, e.venue_key ≠ row.venue_key) :
    row ∈ (eventsAfter t rs).rows := by
  induction rs generalizing t with
  | nil => exact h
  | cons r rs ih =>
    have htail : ∀ r' ∈ rs, ∀ evs, r'.fetch = .ok evs →
        ∀ e ∈ evs, e.venue_key ≠ row.venue_key :=
      fun r' hr' evs hfe e he => hne r' (by simp [hr']) evs hfe e he
    cases hf : r.fetch with
    | error u => simp only [eventsAfter, hf]; exact ih t h htail
    | ok evs =>
      simp only [eventsAfter, hf]
      exact ih _ (mem_foldl_upsert_of_key_ne evs t row h
        (hne r (by simp) evs hf)) htail

/-- C4: venue failures are isolated.  If run `r` fails: the run still
processes every other selected venue, leaving exactly the events a pass
without `r` would leave; the failing step itself changes no event row;
and any event row already committed (after the runs before `r`) whose
venue no later run touches is still present, unchanged, at the end. -/
theorem C4_failure_isolation (db : DBState) (rs1 rs2 : List VenueRun)
    (r : VenueRun) (hfail : r.fetch = .error ()) :
    ((scrapeRun db (rs1 ++ r :: rs2)).events = (scrapeRun db (rs1 ++ rs2)).events)
    ∧ ((scrapeVenueStep (scrapeRun db rs1) r).events = (scrapeRun db rs1).events)
    ∧ (∀ row ∈ (scrapeRun db rs1).events.rows,
        (∀ r' ∈ rs2, ∀ evs, r'.fetch = .ok evs →
          ∀ e ∈ evs, e.venue_key ≠ row.venue_key) →
        row ∈ (scrapeRun db (rs1 ++ r :: rs2)).events.rows) := by
  refine ⟨?_, scrapeVenueStep_events_of_error _ _ hfail, ?_⟩
  · rw [scrapeRun_events, scrapeRun_events,
      eventsAfter_middle_error _ _ _ _ hfail]
  · intro row hrow hne
    rw [scrapeRun_append, scrapeRun_events]
    apply mem_eventsAfter_of_key_ne _ _ _ hrow
    intro r' hr' evs hfe e he
    rcases List.mem_cons.mp hr' with rfl | hr'
    · rw [hfail] at hfe
      cases hfe
    · exact hne r' hr' evs hfe e he

/-- C4 witness: a store holding an event for venue `b`, a failing run
and a later successful run for venue `c`. -/
theorem C4_failure_isolation_witness :
    (scrapeRun
        ⟨[], ⟨[⟨1, "b", "t", "2026-01-02", none, "u", none, none, none, none, 0⟩], 5⟩⟩
        ([] ++ ⟨"a", "A", "", "", .error ()⟩ ::
          [⟨"c", "C", "", "",
            .ok [⟨"c", "T", ⟨2026, 1, 5⟩, "u2", none, none, none, none, none,
                  false, none⟩]⟩])).events
      = (scrapeRun
          ⟨[], ⟨[⟨1, "b", "t", "2026-01-02", none, "u", none, none, none, none, 0⟩], 5⟩⟩
          ([] ++ [⟨"c", "C", "", "",
            .ok [⟨"c", "T", ⟨2026, 1, 5⟩, "u2", none, none, none, none, none,
                  false, none⟩]⟩])).events :=
  (C4_failure_isolation _ [] _ _ rfl).1

/-! ### Supporting lemmas for the upsert claims -/

theorem eventKeyMatch_iff {vk u : String} {r : EventRow} :
    eventKeyMatch vk u r = true ↔ r.venue_key = vk ∧ r.url = u := by
  simp [eventKeyMatch]

theorem find?_congr_mem {α : Type} {p q : α → Bool} :
    ∀ l : List α, (∀ a ∈ l, p a = q a) → l.find? p = l.find? q := by
  intro l
  induction l with
  | nil => intro _; rfl
  | cons a tl ih =>
    intro h
    rw [List.find?_cons, List.find?_cons, h a (by simp)]
    cases hq : q a
    · simpa using ih fun a' ha' => h a' (by simp [ha'])
    · rfl

theorem upsertUpdate_venue_key (tbl : EventsTable) (e : Event) (r : EventRow) :
    (upsertUpdate tbl e r).venue_key = r.venue_key := by
  unfold upsertUpdate
  split <;> rfl

theorem upsertUpdate_url (tbl : EventsTable) (e : Event) (r : EventRow) :
    (upsertUpdate tbl e r).url = r.url := by
  unfold upsertUpdate
  split <;> rfl

/-- The update branch of `upsert_event` never changes a row's dedup
key, so the key predicate is invariant under it. -/
theorem eventKeyMatch_upsertUpdate (tbl : EventsTable) (e : Event)
    (vk u : String) (r : EventRow) :
    eventKeyMatch vk u (upsertUpdate tbl e r) = eventKeyMatch vk u r := by
  unfold eventKeyMatch
  rw [upsertUpdate_venue_key, upsertUpdate_url]

/-- The `UNIQUE(venue_key, url)` constraint bounds the number of rows
for any one dedup key by one. -/
theorem wf_countP_le_one {rows : List EventRow}
    (h : rows.Pairwise fun a b => a.venue_key ≠ b.venue_key ∨ a.url ≠ b.url)
    (vk u : String) : rows.countP (eventKeyMatch vk u) ≤ 1 := by
  induction rows with
  | nil => simp
  | cons a tl ih =>
    rcases List.pairwise_cons.mp h with ⟨ha, htl⟩
    by_cases hp : eventKeyMatch vk u a = true
    · have h0 : tl.countP (eventKeyMatch vk u) = 0 := by
        rw [List.countP_eq_zero]
        intro b hb hpb
        rcases eventKeyMatch_iff.mp hp with ⟨hak, hau⟩
        rcases eventKeyMatch_iff.mp hpb with ⟨hbk, hbu⟩
        rcases ha b hb with hne | hne
        · exact hne (hak.trans hbk.symm)
        · exact hne (hau.trans hbu.symm)
      rw [List.countP_cons, h0]
      simp [hp]
    · rw [List.countP_cons]
      simp only [hp, if_false]
      simpa using ih htl

/-- `upsert_event` preserves the `UNIQUE(venue_key, url)` constraint. -/
theorem upsert_event_wf (tbl : EventsTable) (e : Event) (hwf : tbl.wf) :
    (upsert_event tbl e).wf := by
  simp only [upsert_event, EventsTable.wf]
  by_cases hany : tbl.rows.any (eventKeyMatch e.venue_key e.url) = true
  · rw [if_pos hany]
    show (tbl.rows.map _).Pairwise _
    rw [List.pairwise_map]
    apply hwf.imp
    intro a b hab
    rw [upsertUpdate_venue_key, upsertUpdate_venue_key,
      upsertUpdate_url, upsertUpdate_url]
    exact hab
  · rw [if_neg hany]
    show (tbl.rows ++ [eventVals tbl e]).Pairwise _
    rw [List.pairwise_append]
    refine ⟨hwf, by simp, ?_⟩
    intro a ha b hb
    rcases List.mem_singleton.mp hb with rfl
    have hnp : ¬ eventKeyMatch e.venue_key e.url a = true := by
      intro hp
      exact hany (List.any_eq_true.mpr ⟨a, ha, hp⟩)
    rcases not_and_or.mp (fun hh => hnp (eventKeyMatch_iff.mpr hh)) with hne | hne
    · exact Or.inl fun hh => hne (by simpa [eventVals] using hh)
    · exact Or.inr fun hh => hne (by simpa [eventVals] using hh)

/-- After `upsert_event`, exactly one row carries the event's dedup
key. -/
theorem upsert_event_countP (tbl : EventsTable) (e : Event) (hwf : tbl.wf) :
    (upsert_event tbl e).rows.countP (eventKeyMatch e.venue_key e.url) = 1 := by
  simp only [upsert_event]
  by_cases hany : tbl.rows.any (eventKeyMatch e.venue_key e.url) = true
  · rw [if_pos hany]
    show (tbl.rows.map _).countP _ = 1
    rw [List.countP_map]
    have hc : tbl.rows.countP
          ((eventKeyMatch e.venue_key e.url) ∘ upsertUpdate tbl e)
        = tbl.rows.countP (eventKeyMatch e.venue_key e.url) :=
      List.countP_congr fun r _ => by
        rw [Function.comp_apply, eventKeyMatch_upsertUpdate]
    rw [hc]
    have hpos : 0 < tbl.rows.countP (eventKeyMatch e.venue_key e.url) :=
      List.countP_pos_iff.mpr (List.any_eq_true.mp hany)
    have hle := wf_countP_le_one hwf e.venue_key e.url
    omega
  · rw [if_neg hany]
    show (tbl.rows ++ [eventVals tbl e]).countP _ = 1
    rw [List.countP_append]
    have h0 : tbl.rows.countP (eventKeyMatch e.venue_key e.url) = 0 := by
      rw [List.countP_eq_zero]
      intro a ha hp
      exact hany (List.any_eq_true.mpr ⟨a, ha, hp⟩)
    have h1 : ([eventVals tbl e].countP (eventKeyMatch e.venue_key e.url)) = 1 := by
      simp [List.countP_cons, eventKeyMatch, eventVals]
    omega

/-- When a matching row exists, the conflict branch of `upsert_event`
leaves the first matching row updated in place. -/
theorem upsert_event_find?_of_any (tbl : EventsTable) (e : Event)
    (hany : tbl.rows.any (eventKeyMatch e.venue_key e.url) = true)
    (r1 : EventRow)
    (hr1 : tbl.rows.find? (eventKeyMatch e.venue_key e.url) = some r1) :
    (upsert_event tbl e).rows.find? (eventKeyMatch e.venue_key e.url)
      = some (updateRow (eventVals tbl e) r1) := by
  simp only [upsert_event]
  rw [if_pos hany]
  show (tbl.rows.map _).find? _ = _
  rw [List.find?_map]
  have hc : tbl.rows.find?
        ((eventKeyMatch e.venue_key e.url) ∘ upsertUpdate tbl e)
      = tbl.rows.find? (eventKeyMatch e.venue_key e.url) :=
    find?_congr_mem _ fun r _ => by
      rw [Function.comp_apply, eventKeyMatch_upsertUpdate]
  rw [hc, hr1]
  show some (upsertUpdate tbl e r1) = _
  unfold upsertUpdate
  rw [if_pos (List.find?_some hr1)]

/-- C1: upserting two events with the same `(venue_key, url)` into a
store satisfying the schema's UNIQUE constraint leaves exactly one row
for that key; its surrogate id and dedup key are the ones the first
upsert produced, and every mutable field carries the second event's
(serialized) values.  With `e1 = e2` this is idempotence. -/
theorem C1_upsert_idempotent (tbl : EventsTable) (e1 e2 : Event)
    (hwf : tbl.wf) (hk : e1.venue_key = e2.venue_key) (hu : e1.url = e2.url) :
    ((upsert_event (upsert_event tbl e1) e2).rows.countP
        (eventKeyMatch e2.venue_key e2.url) = 1)
    ∧ ∃ r1,
        (upsert_event tbl e1).rows.find? (eventKeyMatch e2.venue_key e2.url)
          = some r1
        ∧ (upsert_event (upsert_event tbl e1) e2).rows.find?
              (eventKeyMatch e2.venue_key e2.url)
            = some { id := r1.id, venue_key := r1.venue_key, title := e2.title,
                     date := e2.date.isoformat,
                     time := e2.time.map Time.isoformat, url := r1.url,
                     description := e2.description, image_url := e2.image_url,
                     on_sale_date := e2.on_sale_date.map Date.isoformat,
                     price := e2.price,
                     sold_out := if e2.sold_out then 1 else 0 } := by
  have hwf1 : (upsert_event tbl e1).wf := upsert_event_wf tbl e1 hwf
  have h1 : (upsert_event tbl e1).rows.countP
      (eventKeyMatch e2.venue_key e2.url) = 1 := by
    rw [← hk, ← hu]
    exact upsert_event_countP tbl e1 hwf
  refine ⟨upsert_event_countP _ e2 hwf1, ?_⟩
  have hsome : ((upsert_event tbl e1).rows.find?
      (eventKeyMatch e2.venue_key e2.url)).isSome := by
    rw [List.find?_isSome]
    exact List.countP_pos_iff.mp (by omega)
  obtain ⟨r1, hr1⟩ := Option.isSome_iff_exists.mp hsome
  refine ⟨r1, hr1, ?_⟩
  have hany1 : (upsert_event tbl e1).rows.any
      (eventKeyMatch e2.venue_key e2.url) = true :=
    List.any_eq_true.mpr (List.countP_pos_iff.mp (by omega))
  rw [upsert_event_find?_of_any (upsert_event tbl e1) e2 hany1 r1 hr1]
  rfl

/-- C2: `get_upcoming_events` returns exactly the rows in the window,
sorted by date ascending then time ascending with `NULL` times before
every timed event of the same date; on a store holding 2026-02-21
(no time), 2026-02-21 08:00 and 2026-02-20 23:00 it returns them as
[2026-02-20 23:00, 2026-02-21 (no time), 2026-02-21 08:00]. -/
theorem C2_query_ordering :
    (∀ (tbl : EventsTable) (start endd : String),
        List.Sorted rowLe (selectUpcomingRows tbl start endd)
        ∧ (selectUpcomingRows tbl start endd).Perm
            (tbl.rows.filter fun r =>
              bytesLe start.data r.date.data && bytesLe r.date.data endd.data))
    ∧ get_upcoming_events
        ⟨[⟨1, "v", "A", "2026-02-21", none, "ua", none, none, none, none, 0⟩,
          ⟨2, "v", "B", "2026-02-21", some "08:00:00", "ub", none, none, none,
            none, 0⟩,
          ⟨3, "v", "C", "2026-02-20", some "23:00:00", "uc", none, none, none,
            none, 0⟩], 4⟩
        "2026-02-01" "2026-05-01"
      = [some ⟨"v", "C", ⟨2026, 2, 20⟩, "uc", some ⟨23, 0, 0⟩, none, none, none,
            none, false, some 3⟩,
         some ⟨"v", "A", ⟨2026, 2, 21⟩, "ua", none, none, none, none, none,
            false, some 1⟩,
         some ⟨"v", "B", ⟨2026, 2, 21⟩, "ub", some ⟨8, 0, 0⟩, none, none, none,
            none, false, some 2⟩] := by
  refine ⟨fun tbl start endd =>
    ⟨List.sorted_insertionSort rowLe _, List.perm_insertionSort rowLe _⟩, ?_⟩
  decide

/-! ### The Python `(date, time)` sort key is a total preorder -/

theorem timeLeB_total (a b : Time) :
    Time.leB a b = true ∨ Time.leB b a = true := by
  simp only [Time.leB]
  split_ifs <;> simp only [decide_eq_true_eq] <;> omega

theorem timeLeB_trans (a b c : Time) (h1 : Time.leB a b = true)
    (h2 : Time.leB b c = true) : Time.leB a c = true := by
  simp only [Time.leB] at *
  split_ifs at * <;> simp only [decide_eq_true_eq] at * <;> omega

theorem dateLtB_trans (a b c : Date) (h1 : a.ltB b = true)
    (h2 : b.ltB c = true) : a.ltB c = true := by
  simp only [Date.ltB] at *
  split_ifs at * <;> simp only [decide_eq_true_eq] at * <;> omega

theorem dateLtB_asymm (a b : Date) (h1 : a.ltB b = true)
    (h2 : b.ltB a = true) : False := by
  simp only [Date.ltB] at *
  split_ifs at * <;> simp only [decide_eq_true_eq] at * <;> omega

theorem dateLtB_or_eq (a b : Date) :
    a.ltB b = true ∨ b.ltB a = true ∨ a = b := by
  rcases a with ⟨ay, am, ad⟩
  rcases b with ⟨cy, cm, cd⟩
  simp only [Date.ltB, Date.mk.injEq]
  split_ifs <;> simp only [decide_eq_true_eq] <;> omega

instance evKeyLe_isTotal : IsTotal Event evKeyLe where
  total a b := by
    unfold evKeyLe evKeyLeB
    by_cases h : a.date = b.date
    · rw [if_pos h, if_pos h.symm]
      exact timeLeB_total _ _
    · rw [if_neg h, if_neg fun hh => h hh.symm]
      rcases dateLtB_or_eq a.date b.date with hl | hl | hl
      · exact Or.inl hl
      · exact Or.inr hl
      · exact absurd hl h

instance evKeyLe_isTrans : IsTrans Event evKeyLe where
  trans a b c hab hbc := by
    unfold evKeyLe evKeyLeB at *
    by_cases h1 : a.date = b.date <;> by_cases h2 : b.date = c.date
    · rw [if_pos h1] at hab
      rw [if_pos h2] at hbc
      rw [if_pos (h1.trans h2)]
      exact timeLeB_trans _ _ _ hab hbc
    · rw [if_pos h1] at hab
      rw [if_neg h2] at hbc
      rw [if_neg fun hh => h2 (h1.symm.trans hh)]
      rw [h1]
      exact hbc
    · rw [if_neg h1] at hab
      rw [if_pos h2] at hbc
      rw [if_neg fun hh => h1 (hh.trans h2.symm), ← h2]
      exact hab
    · rw [if_neg h1] at hab
      rw [if_neg h2] at hbc
      by_cases hac : a.date = c.date
      · exact (dateLtB_asymm _ _ hab (hac ▸ hbc)).elim
      · rw [if_neg hac]
        exact dateLtB_trans _ _ _ hab hbc

/-- C7 counterexample: `ElectricBallroomScraper.fetch_events` never
sorts — it returns events in listing-page order, so a page whose cards
are not date-ordered produces an unsorted result, refuting "every
adapter's fetch_events returns a list sorted by (date, time)". -/
theorem C7_counterexample :
    eb_fetch_events (.ok
        [⟨some "u1", some "A", true, some (some (2, 10)), none, none, none⟩,
         ⟨some "u2", some "B", true, some (some (1, 5)), none, none, none⟩])
        ⟨2026, 1, 1⟩
      = .ok [⟨"electricballroom", "A", ⟨2026, 2, 10⟩, "u1", none, none, none,
               none, none, false, none⟩,
             ⟨"electricballroom", "B", ⟨2026, 1, 5⟩, "u2", none, none, none,
               none, none, false, none⟩]
    ∧ ¬ List.Sorted evKeyLe
        [⟨"electricballroom", "A", ⟨2026, 2, 10⟩, "u1", none, none, none,
            none, none, false, none⟩,
         ⟨"electricballroom", "B", ⟨2026, 1, 5⟩, "u2", none, none, none,
            none, none, false, none⟩] := by
  constructor
  · decide
  · decide

/-- C7 amended: a listing-page fetch failure fails the whole
`fetch_events` call (Electric Ballroom and Jazz Cafe alike);
`JazzCafeScraper.fetch_events` returns its events sorted by
`(date, time or time.min)` whatever order the concurrent detail fetches
complete in; `ElectricBallroomScraper.fetch_events` instead returns its
events in listing-page order, without sorting. -/
theorem C7_fetch_contract :
    (∀ today, eb_fetch_events (.error ()) today = .error ())
    ∧ (∀ today detailOf sched,
        jc_fetch_events (.error ()) today detailOf sched = .error ())
    ∧ (∀ cards today,
        eb_fetch_events (.ok cards) today
          = .ok (cards.filterMap (ebCardEvent today)))
    ∧ (∀ listing today detailOf sched l,
        jc_fetch_events listing today detailOf sched = .ok l →
        List.Sorted evKeyLe l) := by
  refine ⟨fun _ => rfl, fun _ _ _ => rfl, fun _ _ => rfl, ?_⟩
  intro listing today detailOf sched l h
  cases listing with
  | error e => cases h
  | ok items =>
    simp only [jc_fetch_events] at h
    cases hs : jcStubs today items with
    | error e => rw [hs] at h; cases h
    | ok stubs =>
      rw [hs] at h
      have h' := Except.ok.inj h
      rw [← h']
      exact List.sorted_insertionSort evKeyLe _

/-- C7 witness: a one-event Jazz Cafe listing goes through the sorted
path. -/
theorem C7_fetch_contract_witness :
    List.Sorted evKeyLe
      [⟨"jazzcafe", "t", ⟨2026, 1, 5⟩, "u", none, none, none, none, none,
        false, none⟩] :=
  C7_fetch_contract.2.2.2 (.ok [⟨some "t", some "u", "Mon5Jan"⟩]) ⟨2026, 1, 1⟩
    (fun _ => {}) id _ (by decide)

/-! ### Supporting lemmas for the store round-trip claim -/

theorem time_isoformat_data_ne_nil (t : Time) : t.isoformat.data ≠ [] := by
  show padChars 2 (natChars t.hour) ++ _ ≠ []
  simp

theorem date_isoformat_data_ne_nil (d : Date) : d.isoformat.data ≠ [] := by
  show padChars 4 (natChars d.year) ++ _ ≠ []
  simp

theorem bool_ser_roundtrip (b : Bool) : ((if b then (1 : Nat) else 0) != 0) = b := by
  cases b <;> rfl

/-- `upsert_event` always leaves a row carrying the event's dedup key
and its serialized field values. -/
theorem upsert_event_mem_serialized (tbl : EventsTable) (e : Event) :
    ∃ row ∈ (upsert_event tbl e).rows,
      row.venue_key = e.venue_key ∧ row.url = e.url ∧ row.title = e.title
      ∧ row.date = e.date.isoformat ∧ row.time = e.time.map Time.isoformat
      ∧ row.description = e.description ∧ row.image_url = e.image_url
      ∧ row.on_sale_date = e.on_sale_date.map Date.isoformat
      ∧ row.price = e.price
      ∧ row.sold_out = (if e.sold_out then 1 else 0) := by
  simp only [upsert_event]
  by_cases hany : tbl.rows.any (eventKeyMatch e.venue_key e.url) = true
  · rw [if_pos hany]
    obtain ⟨r, hr, hp⟩ := List.any_eq_true.mp hany
    refine ⟨upsertUpdate tbl e r, List.mem_map_of_mem _ hr, ?_⟩
    rcases eventKeyMatch_iff.mp hp with ⟨hk, hu⟩
    unfold upsertUpdate
    rw [if_pos hp]
    exact ⟨hk, hu, rfl, rfl, rfl, rfl, rfl, rfl, rfl, rfl⟩
  · rw [if_neg hany]
    exact ⟨eventVals tbl e, List.mem_append_right _ (by simp),
      rfl, rfl, rfl, rfl, rfl, rfl, rfl, rfl, rfl, rfl⟩

/-- `_row_to_event` undoes the serialization `upsert_event` performs,
for valid dates and times. -/
theorem row_to_event_serialized (i : Nat) (e : Event)
    (hd : e.date.ok) (ht : ∀ t ∈ e.time, t.ok)
    (ho : ∀ d ∈ e.on_sale_date, d.ok) :
    _row_to_event
        ⟨i, e.venue_key, e.title, e.date.isoformat,
          e.time.map Time.isoformat, e.url, e.description, e.image_url,
          e.on_sale_date.map Date.isoformat, e.price,
          if e.sold_out then 1 else 0⟩
      = some ⟨e.venue_key, e.title, e.date, e.url, e.time, e.description,
          e.image_url, e.on_sale_date, e.price, e.sold_out, some i⟩ := by
  cases hto : e.time with
  | none =>
    cases hoo : e.on_sale_date with
    | none =>
      simp [_row_to_event, dateFromIso_isoformat e.date hd, hto, hoo,
        bool_ser_roundtrip]
    | some d0 =>
      have hdo : d0.ok := ho d0 (by simp [hoo])
      simp [_row_to_event, dateFromIso_isoformat e.date hd,
        dateFromIso_isoformat d0 hdo, date_isoformat_data_ne_nil d0, hto, hoo,
        bool_ser_roundtrip]
  | some t0 =>
    have hto' : t0.ok := ht t0 (by simp [hto])
    cases hoo : e.on_sale_date with
    | none =>
      simp [_row_to_event, dateFromIso_isoformat e.date hd,
        timeFromIso_isoformat t0 hto', time_isoformat_data_ne_nil t0, hto, hoo,
        bool_ser_roundtrip]
    | some d0 =>
      have hdo : d0.ok := ho d0 (by simp [hoo])
      simp [_row_to_event, dateFromIso_isoformat e.date hd,
        timeFromIso_isoformat t0 hto', time_isoformat_data_ne_nil t0,
        dateFromIso_isoformat d0 hdo, date_isoformat_data_ne_nil d0, hto, hoo,
        bool_ser_roundtrip]

/-- C9: writing an event with `upsert_event` and reading it back with
`get_upcoming_events` (window containing its date) returns an event
equal to the stored one on every field — the write-side serialization
(ISO strings, 0/1 sold-out) and the read-side parsing compose to the
identity, including the `none` cases. -/
theorem C9_store_roundtrip (tbl : EventsTable) (e : Event) (start endd : String)
    (hd : e.date.ok) (ht : ∀ t ∈ e.time, t.ok) (ho : ∀ d ∈ e.on_sale_date, d.ok)
    (hw1 : bytesLe start.data e.date.isoformat.data = true)
    (hw2 : bytesLe e.date.isoformat.data endd.data = true) :
    ∃ ev, some ev ∈ get_upcoming_events (upsert_event tbl e) start endd
      ∧ ev.venue_key = e.venue_key ∧ ev.title = e.title ∧ ev.date = e.date
      ∧ ev.time = e.time ∧ ev.url = e.url ∧ ev.description = e.description
      ∧ ev.image_url = e.image_url ∧ ev.on_sale_date = e.on_sale_date
      ∧ ev.price = e.price ∧ ev.sold_out = e.sold_out := by
  obtain ⟨row, hrow, hk, hu, htt, hdt, htm, hde, him, hos, hpr, hso⟩ :=
    upsert_event_mem_serialized tbl e
  have hfil : row ∈ (upsert_event tbl e).rows.filter
      (fun r => bytesLe start.data r.date.data && bytesLe r.date.data endd.data) := by
    refine List.mem_filter.mpr ⟨hrow, ?_⟩
    rw [hdt]
    simp [hw1, hw2]
  have hsel : row ∈ selectUpcomingRows (upsert_event tbl e) start endd :=
    ((List.perm_insertionSort rowLe _).mem_iff).mpr hfil
  have hrowlit : row = ⟨row.id, e.venue_key, e.title, e.date.isoformat,
      e.time.map Time.isoformat, e.url, e.description, e.image_url,
      e.on_sale_date.map Date.isoformat, e.price,
      if e.sold_out then 1 else 0⟩ := by
    rcases row with ⟨i, f1, f2, f3, f4, f5, f6, f7, f8, f9, f10⟩
    simp_all
  have heq : _row_to_event row
      = some ⟨e.venue_key, e.title, e.date, e.url, e.time, e.description,
          e.image_url, e.on_sale_date, e.price, e.sold_out, some row.id⟩ := by
    rw [hrowlit]
    exact row_to_event_serialized row.id e hd ht ho
  refine ⟨⟨e.venue_key, e.title, e.date, e.url, e.time, e.description,
      e.image_url, e.on_sale_date, e.price, e.sold_out, some row.id⟩,
    ?_, rfl, rfl, rfl, rfl, rfl, rfl, rfl, rfl, rfl, rfl⟩
  rw [← heq]
  exact List.mem_map_of_mem _row_to_event hsel

/-- C9 witness: a fully-populated event stored into an empty table and
read back. -/
theorem C9_store_roundtrip_witness :
    ∃ ev, some ev ∈ get_upcoming_events
        (upsert_event ⟨[], 1⟩
          ⟨"v", "T", ⟨2026, 3, 1⟩, "u", some ⟨19, 30, 0⟩, some "desc",
            some "img", some ⟨2026, 1, 10⟩, some "£25", true, none⟩)
        "2026-02-01" "2026-05-01"
      ∧ ev.venue_key = "v" ∧ ev.title = "T" ∧ ev.date = ⟨2026, 3, 1⟩
      ∧ ev.time = some ⟨19, 30, 0⟩ ∧ ev.url = "u" ∧ ev.description = some "desc"
      ∧ ev.image_url = some "img" ∧ ev.on_sale_date = some ⟨2026, 1, 10⟩
      ∧ ev.price = some "£25" ∧ ev.sold_out = true := by
  exact C9_store_roundtrip ⟨[], 1⟩
    ⟨"v", "T", ⟨2026, 3, 1⟩, "u", some ⟨19, 30, 0⟩, some "desc", some "img",
      some ⟨2026, 1, 10⟩, some "£25", true, none⟩
    "2026-02-01" "2026-05-01" (by decide)
    (by intro t htm; rw [Option.mem_def, Option.some_inj] at htm; rw [← htm]; decide)
    (by intro d hdm; rw [Option.mem_def, Option.some_inj] at hdm; rw [← hdm]; decide)
    (by decide) (by decide)

/-- C1 witness: the same event upserted twice into an empty store. -/
theorem C1_upsert_idempotent_witness :
    ((upsert_event (upsert_event ⟨[], 1⟩
        ⟨"v", "T", ⟨2026, 2, 21⟩, "u", none, none, none, none, none, false, none⟩)
        ⟨"v", "T", ⟨2026, 2, 21⟩, "u", none, none, none, none, none, false, none⟩).rows.countP
        (eventKeyMatch "v" "u") = 1) := by
  have h := C1_upsert_idempotent ⟨[], 1⟩
    ⟨"v", "T", ⟨2026, 2, 21⟩, "u", none, none, none, none, none, false, none⟩
    ⟨"v", "T", ⟨2026, 2, 21⟩, "u", none, none, none, none, none, false, none⟩
    (by simp [EventsTable.wf]) rfl rfl
  exact h.1

end CV
